import Mathlib

/-!
Verification of the `ai-reviewer-core` library.

This file gives a shallow embedding of the three core modules of the
repository — the unified-diff parser (`src/parseDiff.js`), the review
orchestrator (`src/reviewer.js`), and the OpenAI provider
(`src/llm/providers/openai.js`) — and proves the specified properties
about them.

JavaScript strings are modelled as `List Char`; untyped JavaScript
values arriving at an API boundary are modelled by the `JSInput`
inductive; thrown exceptions are modelled by `Except String`.
-/

set_option maxRecDepth 4000

/-! ## JavaScript string helpers (embedding of the JS string methods used) -/

/-- Embedding of JavaScript `s.startsWith(p)`: `strStarts p s` is true when
the pattern `p` is an initial segment of `s`. -/
def strStarts : List Char → List Char → Bool
  | [], _ => true
  | _ :: _, [] => false
  | p :: ps, c :: cs => p == c && strStarts ps cs

/-- Embedding of JavaScript `s.includes(p)`: substring search. -/
def strHas (p : List Char) : List Char → Bool
  | [] => strStarts p []
  | c :: t => strStarts p (c :: t) || strHas p t

/-- Embedding of JavaScript `diff.split('\n')`: split on every newline,
keeping empty pieces. -/
def splitLines : List Char → List (List Char)
  | [] => [[]]
  | c :: rest =>
    if c = '\n' then [] :: splitLines rest
    else
      match splitLines rest with
      | [] => [[c]]
      | l :: ls => (c :: l) :: ls

/-- The characters removed by JavaScript `String.prototype.trim`: the
ECMAScript WhiteSpace production (TAB, VT, FF, SP, NBSP U+00A0,
ZWNBSP U+FEFF, and every Unicode Space_Separator: U+1680, U+2000–U+200A,
U+202F, U+205F, U+3000) together with the LineTerminator production
(LF, CR, LS U+2028, PS U+2029). -/
def isJsSpace (c : Char) : Bool :=
  decide (0x09 ≤ c.toNat ∧ c.toNat ≤ 0x0D) || c.toNat == 0x20 || c.toNat == 0xA0 ||
  c.toNat == 0x1680 || decide (0x2000 ≤ c.toNat ∧ c.toNat ≤ 0x200A) ||
  c.toNat == 0x2028 || c.toNat == 0x2029 || c.toNat == 0x202F ||
  c.toNat == 0x205F || c.toNat == 0x3000 || c.toNat == 0xFEFF

/-- Embedding of JavaScript `s.trim()`: drop whitespace from both ends. -/
def jsTrim (s : List Char) : List Char :=
  ((s.dropWhile isJsSpace).reverse.dropWhile isJsSpace).reverse

/-- Decidable equality for `Except`, used to evaluate the embedded
functions on concrete inputs. -/
instance {ε α : Type} [DecidableEq ε] [DecidableEq α] : DecidableEq (Except ε α)
  | .error a, .error b => decidable_of_iff (a = b) (by simp)
  | .error _, .ok _ => isFalse (by simp)
  | .ok _, .error _ => isFalse (by simp)
  | .ok a, .ok b => decidable_of_iff (a = b) (by simp)

/-- An untyped JavaScript value arriving at an exported API boundary.
Only the shapes exercised by the specification are distinguished; every
non-string shape is handled identically by the code under verification. -/
inductive JSInput where
  | null
  | undefined
  | num (n : Int)
  | str (s : String)
deriving DecidableEq

/-! ## Data model (`src/parseDiff.js`) -/

/-- The `type` field of a parsed change. -/
inductive ChangeType where
  | context
  | addition
  | deletion
deriving DecidableEq

/-- A parsed `@@ -O[,len] +N[,len] @@` header (`parseHunkHeader` result). -/
structure HunkHeader where
  oldStart : Nat
  newStart : Nat
deriving DecidableEq

/-- One element of a hunk's `changes` array. -/
structure Change where
  content : List Char
  type : ChangeType
  lineNumber : Option Nat
deriving DecidableEq

/-- A parsed hunk: `{ changes, filename, hunkHeader }`. -/
structure Hunk where
  changes : List Change
  filename : List Char
  hunkHeader : Option HunkHeader
deriving DecidableEq

/-- The mutable `lineCounters` object of `parseDiff`. -/
structure LineCounters where
  oldLine : Nat
  newLine : Nat
deriving DecidableEq

/-! ## The diff parser (`src/parseDiff.js`) -/

/-- The marker `"diff --git"`. -/
def dgMark : List Char := "diff --git".data

/-- The marker `"@@"`. -/
def atMark : List Char := "@@".data

/-- The marker `"index"`. -/
def idxMark : List Char := "index".data

/-- The marker `"---"`. -/
def dashMark : List Char := "---".data

/-- The marker `"+++"`. -/
def plusMark : List Char := "+++".data

/-- `parseInt(ds, 10)` on a non-empty string of decimal digits. -/
def digitsToNat (ds : List Char) : Nat :=
  ds.foldl (fun acc c => acc * 10 + (c.toNat - '0'.toNat)) 0

/-- One step of the header regex `(?:,\d+)?`: if the input starts with a
comma it must be followed by at least one digit (which is consumed
greedily), otherwise the group matches the empty string.  Returns the
rest of the input, or `none` when the regex cannot match here. -/
def chompCommaDigits : List Char → Option (List Char)
  | ',' :: rest =>
    match rest.span Char.isDigit with
    | ([], _) => none
    | (_ :: _, r) => some r
  | cs => some cs

/-- Matching the regex `@@ -(\d+)(?:,\d+)? \+(\d+)(?:,\d+)? @@` at the head
of the input.  Because every `\d+` is followed by a character that is not a
digit, greedy matching without backtracking is exact here. -/
def matchHeaderAt (cs : List Char) : Option (Nat × Nat) :=
  match cs with
  | '@' :: '@' :: ' ' :: '-' :: rest =>
    match rest.span Char.isDigit with
    | ([], _) => none
    | (d1, r1) =>
      match chompCommaDigits r1 with
      | none => none
      | some r2 =>
        match r2 with
        | ' ' :: '+' :: r3 =>
          match r3.span Char.isDigit with
          | ([], _) => none
          | (d2, r4) =>
            match chompCommaDigits r4 with
            | none => none
            | some (' ' :: '@' :: '@' :: _) => some (digitsToNat d1, digitsToNat d2)
            | some _ => none
        | _ => none
  | _ => none

/-- Unanchored regex search: try each start position from the left, as
`String.prototype.match` does. -/
def searchHeader : List Char → Option (Nat × Nat)
  | [] => none
  | c :: rest =>
    match matchHeaderAt (c :: rest) with
    | some r => some r
    | none => searchHeader rest

/-- `parseHunkHeader(header)`: regex-match the `@@ -O[,len] +N[,len] @@`
pattern and return `{oldStart, newStart}`, or `null` when there is no
match. -/
def parseHunkHeader (line : List Char) : Option HunkHeader :=
  (searchHeader line).map fun p => ⟨p.1, p.2⟩

/-- `calculateLineNumber(line, lineCounters)`: returns the line number for
this change and the updated counters (the source mutates `lineCounters` in
place; the embedding threads it explicitly). -/
def calculateLineNumber (line : List Char) (lc : Option LineCounters) :
    Option Nat × Option LineCounters :=
  match lc with
  | none => (none, none)
  | some c =>
    if strStarts ['+'] line then (some c.newLine, some ⟨c.oldLine, c.newLine + 1⟩)
    else if strStarts ['-'] line then (some c.oldLine, some ⟨c.oldLine + 1, c.newLine⟩)
    else (some c.newLine, some ⟨c.oldLine + 1, c.newLine + 1⟩)

/-- The `type` ternary of `parseDiff`:
`line[0] === '+' ? 'addition' : line[0] === '-' ? 'deletion' : 'context'`
(`line[0]` of an empty string is `undefined`, hence `context`). -/
def classifyLine : List Char → ChangeType
  | [] => .context
  | c :: _ => if c = '+' then .addition else if c = '-' then .deletion else .context

/-- The local mutable state of the `parseDiff` scanning loop. -/
structure ParseState where
  hunks : List Hunk
  currentHunk : List Change
  currentFile : List Char
  currentHunkHeader : Option HunkHeader
  lineCounters : Option LineCounters

/-- The `hunks.push({changes, filename, hunkHeader})` performed (guarded by
`currentHunk.length > 0`) when a hunk is flushed. -/
def pushCurrent (st : ParseState) : List Hunk :=
  if st.currentHunk.isEmpty then st.hunks
  else st.hunks ++ [⟨st.currentHunk, st.currentFile, st.currentHunkHeader⟩]

/-- The filename extraction `line.slice(11).split(' ')[0].slice(2)`. -/
def extractFile (line : List Char) : List Char :=
  ((line.drop 11).takeWhile (· != ' ')).drop 2

/-- The body of the `for (const line of lines)` loop of `parseDiff`. -/
def processLine (st : ParseState) (line : List Char) : ParseState :=
  if strStarts dgMark line then
    { hunks := pushCurrent st, currentHunk := [],
      currentFile := extractFile line, currentHunkHeader := none, lineCounters := none }
  else if strStarts atMark line then
    let hdr := parseHunkHeader line
    { hunks := pushCurrent st, currentHunk := [],
      currentFile := st.currentFile, currentHunkHeader := hdr,
      lineCounters := hdr.map fun h => ⟨h.oldStart, h.newStart⟩ }
  else if strStarts idxMark line || strStarts dashMark line || strStarts plusMark line then
    st
  else
    let r := calculateLineNumber line st.lineCounters
    { st with
      currentHunk := st.currentHunk ++ [⟨line, classifyLine line, r.1⟩],
      lineCounters := r.2 }

/-- The scanning loop of `parseDiff` over the already-split lines, followed
by the final flush of any in-progress hunk. -/
def parseDiffLines (lines : List (List Char)) : List Hunk :=
  pushCurrent (lines.foldl processLine ⟨[], [], [], none, none⟩)

/-- `parseDiff(diff)`: reject anything that is not a non-empty string
(`!diff || typeof diff !== 'string'`) and otherwise scan the split lines. -/
def parseDiff (input : JSInput) : Except String (List Hunk) :=
  match input with
  | .str s =>
    if s = "" then .error "Invalid diff input: expected non-empty string"
    else .ok (parseDiffLines (splitLines s.data))
  | _ => .error "Invalid diff input: expected non-empty string"

/-! ## The review orchestrator (`src/reviewer.js`) -/

/-- Concatenation of a list of lists (the successive
`results.comments.push(...hunkComments)` calls). -/
def concatAll {α : Type} : List (List α) → List α
  | [] => []
  | l :: ls => l ++ concatAll ls

/-- Whether an `Except` computation succeeded (promise resolved rather
than rejected). -/
def exceptOk {ε α : Type} : Except ε α → Bool
  | .ok _ => true
  | .error _ => false

/-- One comment as decoded from the model's JSON payload:
`{"body": string, "line": int}`. -/
structure RawComment where
  body : List Char
  line : Int
deriving DecidableEq

/-- The decoded review response object.  `comments = none` models a
response whose `comments` field is missing or not an array (the
`!reviewResponse.comments || !Array.isArray(...)` check). -/
structure ReviewResponse where
  comments : Option (List RawComment)
deriving DecidableEq

/-- A comment enriched with its owning hunk's file information
(`{...comment, filename, hunkHeader}`). -/
structure ReviewComment where
  body : List Char
  line : Int
  filename : List Char
  hunkHeader : Option HunkHeader
deriving DecidableEq

/-- The external collaborators of the orchestrator: the LLM coordinator
calls (`getReviewFromLLM`, `getSummaryFromLLM`), which are awaited
promises that either resolve or reject, and the wall clock read for
`metadata.reviewedAt`. -/
structure LLMEnv where
  review : Hunk → Except String ReviewResponse
  summary : List Char → Except String (List Char)
  now : List Char

/-- `reviewHunk(hunk)`: the shape check
`!hunk || !hunk.filename || !hunk.changes` throws before any network
call; in this typed embedding `hunk` is always an object and
`hunk.changes` is always an array (and even an empty array is truthy in
JavaScript), so the check reduces to the filename being non-empty.  The
`try`/`catch` around the LLM call converts any rejection, and any
response without a `comments` array, into an empty contribution. -/
def reviewHunk (env : LLMEnv) (hunk : Hunk) : Except String (List ReviewComment) :=
  if hunk.filename.isEmpty then .error "Invalid hunk data"
  else
    .ok (match env.review hunk with
      | .error _ => []
      | .ok resp =>
        match resp.comments with
        | none => []
        | some cs => cs.map fun c => ⟨c.body, c.line, hunk.filename, hunk.hunkHeader⟩)

/-- The per-hunk contribution to `results.comments`: empty when the LLM
call rejects or returns no `comments` array, the enriched comments
otherwise. -/
def hunkComments (env : LLMEnv) (hunk : Hunk) : List ReviewComment :=
  match env.review hunk with
  | .error _ => []
  | .ok resp =>
    match resp.comments with
    | none => []
    | some cs => cs.map fun c => ⟨c.body, c.line, hunk.filename, hunk.hunkHeader⟩

/-- `generateSummary(diffData)`: a rejection of the summary call is caught
locally and degrades to the fixed failure string. -/
def generateSummary (env : LLMEnv) (diffData : List Char) : List Char :=
  match env.summary diffData with
  | .ok s => s
  | .error _ => "Summary generation failed".data

/-- The options object consumed by `reviewChanges`; only
`options.generateSummary` is read (compared against `false` with `!==`). -/
structure ReviewOptions where
  generateSummary : Option Bool := none
deriving DecidableEq

/-- The aggregated review results object (`metadata` fields inlined). -/
structure ReviewResult where
  summary : Option (List Char)
  comments : List ReviewComment
  hunks : List Hunk
  reviewedAt : List Char
  totalHunks : Nat
  totalComments : Nat
deriving DecidableEq

/-- The `for (const hunk of hunks)` loop of `reviewChanges`: each hunk is
awaited in order and its comments appended; a thrown `reviewHunk`
validation error aborts the loop. -/
def collectComments (env : LLMEnv) : List Hunk → Except String (List ReviewComment)
  | [] => .ok []
  | h :: hs =>
    match reviewHunk env h with
    | .error e => .error e
    | .ok cs =>
      match collectComments env hs with
      | .error e => .error e
      | .ok rest => .ok (cs ++ rest)

/-- `reviewChanges(diffData, options)`: validate the input, parse it,
request a summary unless `options.generateSummary === false`, review every
hunk in order, and aggregate.  Errors escaping the `try` block are
re-thrown as `Review failed: <cause>`. -/
def reviewChanges (env : LLMEnv) (diffData : JSInput) (options : ReviewOptions) :
    Except String ReviewResult :=
  match diffData with
  | .str s =>
    if s = "" then .error "Valid diff data is required"
    else
      let hunks := parseDiffLines (splitLines s.data)
      let summary : Option (List Char) :=
        if options.generateSummary = some false then none
        else some (generateSummary env s.data)
      match collectComments env hunks with
      | .error e => .error ("Review failed: " ++ e)
      | .ok comments => .ok ⟨summary, comments, hunks, env.now, hunks.length, comments.length⟩
  | _ => .error "Valid diff data is required"

/-- A JavaScript value that is either a single string or an array of
strings, as accepted for `filters.excludeFiles` / `filters.includeFiles`. -/
inductive StrOrArr where
  | str (s : List Char)
  | arr (l : List (List Char))
deriving DecidableEq

/-- JavaScript truthiness of a `StrOrArr`: the empty string is falsy,
every array (even an empty one) is truthy. -/
def jsTruthy : StrOrArr → Bool
  | .str s => !s.isEmpty
  | .arr _ => true

/-- `Array.isArray(v) ? v : [v]`. -/
def toPatterns : StrOrArr → List (List Char)
  | .str s => [s]
  | .arr l => l

/-- The filter-criteria object of `filterComments`. -/
structure CommentFilters where
  minLength : Option Nat := none
  excludeFiles : Option StrOrArr := none
  includeFiles : Option StrOrArr := none
deriving DecidableEq

/-- The `if (filters.minLength) filtered = filtered.filter(...)` stage:
applied only when `filters.minLength` is truthy (`0` is falsy), it keeps
comments with a truthy `body` of length at least the minimum. -/
def stageMin (filters : CommentFilters) (l : List ReviewComment) : List ReviewComment :=
  match filters.minLength with
  | none => l
  | some m =>
    if m = 0 then l
    else l.filter fun c => !c.body.isEmpty && decide (m ≤ c.body.length)

/-- The `if (filters.excludeFiles) ...` stage: applied only when the
criterion is truthy (the empty string is falsy, any array is truthy), it
drops comments whose filename contains any exclude pattern. -/
def stageExclude (filters : CommentFilters) (l : List ReviewComment) : List ReviewComment :=
  match filters.excludeFiles with
  | none => l
  | some v =>
    if jsTruthy v then
      l.filter fun c => !((toPatterns v).any fun p => strHas p c.filename)
    else l

/-- The `if (filters.includeFiles) ...` stage: applied only when the
criterion is truthy, it keeps comments whose filename contains at least
one include pattern. -/
def stageInclude (filters : CommentFilters) (l : List ReviewComment) : List ReviewComment :=
  match filters.includeFiles with
  | none => l
  | some v =>
    if jsTruthy v then
      l.filter fun c => (toPatterns v).any fun p => strHas p c.filename
    else l

/-- `filterComments(comments, filters)`: starting from a shallow copy of
the input, apply the minimum-length, exclude-patterns, and
include-patterns filters in sequence. -/
def filterComments (comments : List ReviewComment) (filters : CommentFilters) :
    List ReviewComment :=
  stageInclude filters (stageExclude filters (stageMin filters comments))

/-! ## The OpenAI provider (`src/llm/providers/openai.js`) -/

/-- One chat message `{role, content}`. -/
structure OAIMsg where
  role : List Char
  content : List Char
deriving DecidableEq

/-- The options object consumed by `formatRequest`. -/
structure OAIOptions where
  model : Option (List Char) := none
  maxTokens : Option Nat := none
  temperature : Option ℚ := none
deriving DecidableEq

/-- The request body produced by `formatRequest`
(`{model, messages, max_tokens, temperature}`). -/
structure OAIBody where
  model : List Char
  messages : List OAIMsg
  maxTokens : Nat
  temperature : ℚ
deriving DecidableEq

/-- The per-message validation loop of `formatRequest`: throw on the first
message with a falsy `role` or `content`. -/
def validateMessages : List OAIMsg → Option String
  | [] => none
  | m :: ms =>
    if m.role.isEmpty || m.content.isEmpty then some "Each message must have role and content"
    else validateMessages ms

/-- `options.x || default` on a string field: a missing or empty (falsy)
value selects the default. -/
def jsOrStr : Option (List Char) → List Char → List Char
  | some v, d => if v.isEmpty then d else v
  | none, d => d

/-- `options.x || default` on a numeric field: a missing or zero (falsy)
value selects the default. -/
def jsOrNat : Option Nat → Nat → Nat
  | some v, d => if v = 0 then d else v
  | none, d => d

/-- `options.x || default` on a numeric field modelled as a rational:
a missing or zero (falsy) value selects the default. -/
def jsOrRat : Option ℚ → ℚ → ℚ
  | some v, d => if v = 0 then d else v
  | none, d => d

/-- The literal `0.1` (given directly in lowest terms so that concrete
evaluation needs no rational arithmetic). -/
def tenthRat : ℚ := ⟨1, 10, by decide, by decide⟩

/-- `formatRequest(messages, options)`: validate and build the request
body.  A `messages` value that is not an array is outside this typed
embedding; `Array.isArray(messages) && messages.length !== 0` reduces to
the list being non-empty. -/
def formatRequest (messages : List OAIMsg) (options : OAIOptions) :
    Except String OAIBody :=
  if messages.isEmpty then .error "Messages must be a non-empty array"
  else
    match validateMessages messages with
    | some e => .error e
    | none =>
      .ok ⟨jsOrStr options.model "gpt-4o-mini".data, messages,
           jsOrNat options.maxTokens 1000, jsOrRat options.temperature tenthRat⟩

/-- The `message` object of a response choice; `content = none` models a
missing content field. -/
structure OAIMessage where
  content : Option (List Char)
deriving DecidableEq

/-- One element of the response's `choices` array. -/
structure OAIChoice where
  message : Option OAIMessage
  finishReason : Option (List Char)
deriving DecidableEq

/-- A provider response body; `choices = none` models a missing or
non-array `choices` field. -/
structure OAIResponse where
  choices : Option (List OAIChoice)
deriving DecidableEq

/-- The optional-chaining path `responseData?.choices?.[0]?.message?.content`. -/
def extractContent (r : OAIResponse) : Option (List Char) :=
  match r.choices with
  | none => none
  | some cs =>
    match cs.head? with
    | none => none
    | some c =>
      match c.message with
      | none => none
      | some m => m.content

/-- `parseResponse(responseData)`: the first guard throws when the
optional-chaining result is falsy (absent path or empty string); the
second throws when the content is falsy or trims to the empty string.
The non-fatal `console.warn` on `finish_reason === 'length'` has no
effect on the returned value and is not modelled. -/
def parseResponse (r : OAIResponse) : Except String (List Char) :=
  match extractContent r with
  | none => .error "Invalid OpenAI response format"
  | some content =>
    if content.isEmpty then .error "Invalid OpenAI response format"
    else if content.isEmpty || (jsTrim content).length = 0 then
      .error "Empty response from OpenAI"
    else .ok content

/-! ## Specification-side definitions

These definitions are written from the specification's words (not from
the source) and are compared with the embedded code by the theorems
below. -/

/-- A hunk body line: any line that is none of the five structural
markers recognised by the parser's scanning loop. -/
def isBodyLine (l : List Char) : Bool :=
  !strStarts dgMark l && !strStarts atMark l && !strStarts idxMark l &&
  !strStarts dashMark l && !strStarts plusMark l

/-- A metadata line: one beginning `index`, `---` or `+++`. -/
def isMetaLine (l : List Char) : Bool :=
  strStarts idxMark l || strStarts dashMark l || strStarts plusMark l

/-- The specification's line-numbering discipline for a hunk whose header
parsed with old start `o` and new start `n`: an addition returns the
current new-counter and then increments it, a deletion returns the
current old-counter and then increments it, and any other line is
context, increments both counters, and returns the new-counter value. -/
def numberChanges (o n : Nat) : List (List Char) → List Change
  | [] => []
  | l :: ls =>
    if strStarts ['+'] l then ⟨l, .addition, some n⟩ :: numberChanges o (n + 1) ls
    else if strStarts ['-'] l then ⟨l, .deletion, some o⟩ :: numberChanges (o + 1) n ls
    else ⟨l, .context, some n⟩ :: numberChanges (o + 1) (n + 1) ls

/-- The counter values after numbering a list of body lines. -/
def countersAfter (o n : Nat) : List (List Char) → Nat × Nat
  | [] => (o, n)
  | l :: ls =>
    if strStarts ['+'] l then countersAfter o (n + 1) ls
    else if strStarts ['-'] l then countersAfter (o + 1) n ls
    else countersAfter (o + 1) (n + 1) ls

/-- One `@@` header line together with its parsed start values and its
body lines, as used to describe a diff with several hunks in one file. -/
structure DiffSeg where
  hdrLine : List Char
  oldStart : Nat
  newStart : Nat
  body : List (List Char)

/-- The concrete lines of a sequence of hunk segments: each segment
contributes its header line followed by its body lines. -/
def segLines : List DiffSeg → List (List Char)
  | [] => []
  | seg :: rest => seg.hdrLine :: (seg.body ++ segLines rest)

/-- Whitespace-only content (the condition under which trimming empties
a string). -/
def wsOnly (s : List Char) : Bool := s.all isJsSpace

/-- The specification's minimum-length predicate: active exactly when
`filters.minLength` is truthy, and then keeps a comment whose body length
is at least the minimum. -/
def minLenOk (filters : CommentFilters) (c : ReviewComment) : Bool :=
  match filters.minLength with
  | none => true
  | some m => if m = 0 then true else decide (m ≤ c.body.length)

/-- The specification's exclude predicate: active exactly when
`filters.excludeFiles` is truthy, and then drops a comment if any exclude
pattern is a substring of its filename. -/
def excludeOk (filters : CommentFilters) (c : ReviewComment) : Bool :=
  match filters.excludeFiles with
  | none => true
  | some v => if jsTruthy v then !((toPatterns v).any fun p => strHas p c.filename) else true

/-- The specification's include predicate: active exactly when
`filters.includeFiles` is truthy, and then keeps a comment only if at
least one include pattern is a substring of its filename. -/
def includeOk (filters : CommentFilters) (c : ReviewComment) : Bool :=
  match filters.includeFiles with
  | none => true
  | some v => if jsTruthy v then (toPatterns v).any fun p => strHas p c.filename else true

/-- Invariant used while scanning lines that may be arbitrary: the first
hunk ever flushed has the empty filename. -/
def firstHunkInv (st : ParseState) : Prop :=
  (∀ h ∈ st.hunks.head?, h.filename = []) ∧
  (st.hunks = [] → st.currentFile = [] ∧ st.currentHunk ≠ [])

/-- Invariant while scanning lines before any `diff --git` marker: the
filename is still the initial empty string. -/
def preScanInv (st : ParseState) : Prop :=
  st.currentFile = [] ∧ ∀ h ∈ st.hunks, h.filename = []

/-- Strengthening of `firstHunkInv`: the first hunk ever flushed also has
a null header. -/
def firstHunkHdrInv (st : ParseState) : Prop :=
  (∀ h ∈ st.hunks.head?, h.filename = [] ∧ h.hunkHeader = none) ∧
  (st.hunks = [] → st.currentFile = [] ∧ st.currentHunkHeader = none ∧ st.currentHunk ≠ [])

/-- Invariant while scanning lines that contain neither a `diff --git`
marker nor an `@@` header: nothing has been flushed yet and no header has
been seen. -/
def preScanHdrInv (st : ParseState) : Prop :=
  st.currentFile = [] ∧ st.hunks = [] ∧ st.currentHunkHeader = none

/-! ## Concrete fixtures used by witnesses -/

/-- An LLM stub that rejects the review of `a.js` hunks, answers one
comment for every other hunk, and always fails to produce a summary. -/
def envFail : LLMEnv where
  review := fun h =>
    if h.filename = "a.js".data then .error "boom" else .ok ⟨some [⟨"c1".data, 2⟩]⟩
  summary := fun _ => .error "summary down"
  now := []

/-- A two-file diff whose first hunk is reviewed by `envFail` with a
rejection and whose second hunk is reviewed successfully. -/
def diffTwo : String :=
  "diff --git a/a.js b/a.js\n@@ -1 +1 @@\n+x\ndiff --git a/b.js b/b.js\n@@ -2 +3 @@\n+y"

/-- The first hunk of `diffTwo`. -/
def hunkA : Hunk := ⟨[⟨"+x".data, .addition, some 1⟩], "a.js".data, some ⟨1, 1⟩⟩

/-- The second hunk of `diffTwo`. -/
def hunkB : Hunk := ⟨[⟨"+y".data, .addition, some 3⟩], "b.js".data, some ⟨2, 3⟩⟩

/-- A one-file diff all of whose hunks are valid and reviewed
successfully by `envFail`. -/
def diffOne : String := "diff --git a/b.js b/b.js\n@@ -2 +3 @@\n+y"

/-- A diff whose first line is a hunk body line appearing before any
`diff --git` marker. -/
def strayDiff : String := "hello\ndiff --git a/x.js b/x.js\n@@ -1 +1 @@\n+z"

/-- The first hunk produced for `strayDiff`: it carries the stray line,
the empty filename and a null header. -/
def strayHunk : Hunk := ⟨[⟨"hello".data, .context, none⟩], [], none⟩

/-- A provider response whose content path is present but holds the empty
string. -/
def respEmptyContent : OAIResponse := ⟨some [⟨some ⟨some []⟩, none⟩]⟩

/-- A single well-formed chat message list. -/
def msgsOne : List OAIMsg := [⟨"user".data, "hi".data⟩]

/-- Options passing an empty model name, a zero token cap and a zero
temperature — all falsy values in JavaScript. -/
def optsZero : OAIOptions := ⟨some [], some 0, some 0⟩

/-! ## Basic lemmas about the string helpers -/

theorem strStarts_cons {p : Char} {ps l : List Char} :
    strStarts (p :: ps) l = true ↔ ∃ t, l = p :: t ∧ strStarts ps t = true := by
  cases l with
  | nil => simp [strStarts]
  | cons c cs =>
    simp only [strStarts, Bool.and_eq_true, beq_iff_eq, List.cons.injEq]
    constructor
    · rintro ⟨rfl, hs⟩; exact ⟨cs, ⟨rfl, rfl⟩, hs⟩
    · rintro ⟨t, ⟨rfl, rfl⟩, hs⟩; exact ⟨rfl, hs⟩

theorem strStarts_head_ne {p c : Char} {ps t : List Char} (h : p ≠ c) :
    strStarts (p :: ps) (c :: t) = false := by
  simp [strStarts, beq_iff_eq, h]

theorem dgMark_eq : dgMark = 'd' :: "iff --git".data := by decide

theorem atMark_eq : atMark = '@' :: "@".data := by decide

theorem not_dg_of_at {l : List Char} (h : strStarts atMark l = true) :
    strStarts dgMark l = false := by
  rw [atMark_eq] at h
  obtain ⟨t, rfl, -⟩ := strStarts_cons.mp h
  rw [dgMark_eq]
  exact strStarts_head_ne (by decide)

theorem not_dg_not_at_of_meta {l : List Char} (h : isMetaLine l = true) :
    strStarts dgMark l = false ∧ strStarts atMark l = false := by
  have hidx : idxMark = 'i' :: "ndex".data := by decide
  have hdsh : dashMark = '-' :: "--".data := by decide
  have hpls : plusMark = '+' :: "++".data := by decide
  have h' : strStarts idxMark l = true ∨ strStarts dashMark l = true ∨
      strStarts plusMark l = true := by
    simpa [isMetaLine, or_assoc] using h
  rcases h' with h1 | h2 | h3
  · rw [hidx] at h1
    obtain ⟨t, rfl, -⟩ := strStarts_cons.mp h1
    rw [dgMark_eq, atMark_eq]
    exact ⟨strStarts_head_ne (by decide), strStarts_head_ne (by decide)⟩
  · rw [hdsh] at h2
    obtain ⟨t, rfl, -⟩ := strStarts_cons.mp h2
    rw [dgMark_eq, atMark_eq]
    exact ⟨strStarts_head_ne (by decide), strStarts_head_ne (by decide)⟩
  · rw [hpls] at h3
    obtain ⟨t, rfl, -⟩ := strStarts_cons.mp h3
    rw [dgMark_eq, atMark_eq]
    exact ⟨strStarts_head_ne (by decide), strStarts_head_ne (by decide)⟩

theorem isBodyLine_spec {l : List Char} (h : isBodyLine l = true) :
    strStarts dgMark l = false ∧ strStarts atMark l = false ∧
    strStarts idxMark l = false ∧ strStarts dashMark l = false ∧
    strStarts plusMark l = false := by
  simpa [isBodyLine, Bool.and_eq_true, Bool.not_eq_true', and_assoc] using h

/-! ## Branch lemmas for the scanning loop -/

theorem processLine_dg {st : ParseState} {l : List Char} (h : strStarts dgMark l = true) :
    processLine st l = ⟨pushCurrent st, [], extractFile l, none, none⟩ := by
  simp [processLine, h]

theorem processLine_at {st : ParseState} {l : List Char} (h : strStarts atMark l = true) :
    processLine st l =
      ⟨pushCurrent st, [], st.currentFile, parseHunkHeader l,
       (parseHunkHeader l).map fun hh => ⟨hh.oldStart, hh.newStart⟩⟩ := by
  simp [processLine, not_dg_of_at h, h]

theorem processLine_meta {st : ParseState} {l : List Char} (h : isMetaLine l = true) :
    processLine st l = st := by
  obtain ⟨h1, h2⟩ := not_dg_not_at_of_meta h
  simp only [processLine, h1, h2, Bool.false_eq_true, if_false]
  rw [if_pos (by simpa [isMetaLine] using h)]

theorem processLine_body {st : ParseState} {l : List Char} (h : isBodyLine l = true) :
    processLine st l =
      { st with
        currentHunk :=
          st.currentHunk ++ [⟨l, classifyLine l, (calculateLineNumber l st.lineCounters).1⟩],
        lineCounters := (calculateLineNumber l st.lineCounters).2 } := by
  obtain ⟨h1, h2, h3, h4, h5⟩ := isBodyLine_spec h
  simp [processLine, h1, h2, h3, h4, h5]

/-! ## Classification agrees with the numbering discipline -/

theorem classify_plus {l : List Char} (h : strStarts ['+'] l = true) :
    classifyLine l = .addition := by
  obtain ⟨t, rfl, -⟩ := strStarts_cons.mp h
  simp [classifyLine]

theorem classify_minus {l : List Char} (h : strStarts ['-'] l = true) :
    classifyLine l = .deletion := by
  obtain ⟨t, rfl, -⟩ := strStarts_cons.mp h
  simp [classifyLine]

theorem classify_other {l : List Char} (hp : strStarts ['+'] l = false)
    (hm : strStarts ['-'] l = false) : classifyLine l = .context := by
  cases l with
  | nil => rfl
  | cons c t =>
    have hcp : c ≠ '+' := by
      intro rfl1; rw [rfl1] at hp; simp [strStarts] at hp
    have hcm : c ≠ '-' := by
      intro rfl1; rw [rfl1] at hm; simp [strStarts] at hm
    simp [classifyLine, hcp, hcm]

/-! ## Folding body lines -/

theorem foldl_body {bs : List (List Char)} :
    ∀ (st : ParseState) (o n : Nat),
      (∀ b ∈ bs, isBodyLine b = true) → st.lineCounters = some ⟨o, n⟩ →
      bs.foldl processLine st =
        ⟨st.hunks, st.currentHunk ++ numberChanges o n bs, st.currentFile,
         st.currentHunkHeader,
         some ⟨(countersAfter o n bs).1, (countersAfter o n bs).2⟩⟩ := by
  induction bs with
  | nil =>
    intro st o n _ hc
    cases st with
    | mk hunks ch f hdr lc =>
      simp only at hc
      simp [numberChanges, countersAfter, hc]
  | cons b bs ih =>
    intro st o n hall hc
    rw [List.foldl_cons, processLine_body (hall b (by simp))]
    by_cases hp : strStarts ['+'] b = true
    · rw [ih _ o (n + 1) (fun x hx => hall x (by simp [hx]))
        (by simp [hc, calculateLineNumber, hp])]
      simp [numberChanges, countersAfter, hp, hc, calculateLineNumber,
        classify_plus hp, List.append_assoc]
    · by_cases hm : strStarts ['-'] b = true
      · rw [ih _ (o + 1) n (fun x hx => hall x (by simp [hx]))
          (by simp [hc, calculateLineNumber, hp, hm])]
        simp [numberChanges, countersAfter, hp, hm, hc, calculateLineNumber,
          classify_minus hm, List.append_assoc]
      · rw [ih _ (o + 1) (n + 1) (fun x hx => hall x (by simp [hx]))
          (by simp [hc, calculateLineNumber, hp, hm])]
        simp [numberChanges, countersAfter, hp, hm, hc, calculateLineNumber,
          classify_other (by simpa using hp) (by simpa using hm), List.append_assoc]

theorem foldl_body_noCounters {bs : List (List Char)} :
    ∀ {st : ParseState}, st.lineCounters = none →
      (∀ b ∈ bs, isBodyLine b = true) →
      bs.foldl processLine st =
        { st with
          currentHunk := st.currentHunk ++ bs.map fun b => ⟨b, classifyLine b, none⟩ } := by
  induction bs with
  | nil => intro st hc _; simp
  | cons b bs ih =>
    intro st hc hall
    rw [List.foldl_cons, processLine_body (hall b (by simp))]
    rw [ih (by simp [hc, calculateLineNumber]) (fun x hx => hall x (by simp [hx]))]
    simp [hc, calculateLineNumber, List.append_assoc]

theorem foldl_meta {ms : List (List Char)} :
    ∀ {st : ParseState}, (∀ x ∈ ms, isMetaLine x = true) →
      ms.foldl processLine st = st := by
  induction ms with
  | nil => intro st _; rfl
  | cons m ms ih =>
    intro st hall
    rw [List.foldl_cons, processLine_meta (hall m (by simp))]
    exact ih fun x hx => hall x (by simp [hx])

/-! ## Lemmas about the orchestrator -/

theorem concatAll_append {β : Type} (l1 l2 : List (List β)) :
    concatAll (l1 ++ l2) = concatAll l1 ++ concatAll l2 := by
  induction l1 with
  | nil => simp [concatAll]
  | cons a l1 ih => simp [concatAll, ih, List.append_assoc]

theorem concatAll_map_append {α β : Type} (f : α → List β) (l1 l2 : List α) :
    concatAll ((l1 ++ l2).map f) = concatAll (l1.map f) ++ concatAll (l2.map f) := by
  rw [List.map_append, concatAll_append]

theorem length_concatAll {α : Type} (ls : List (List α)) :
    (concatAll ls).length = (ls.map List.length).sum := by
  induction ls with
  | nil => rfl
  | cons l ls ih => simp [concatAll, ih]

theorem reviewHunk_eq_ok {env : LLMEnv} {h : Hunk} (hv : h.filename ≠ []) :
    reviewHunk env h = .ok (hunkComments env h) := by
  have : h.filename.isEmpty = false := by
    cases hf : h.filename with
    | nil => exact absurd hf hv
    | cons c t => rfl
  simp [reviewHunk, hunkComments, this]

theorem hunkComments_of_fail {env : LLMEnv} {h : Hunk}
    (hfail : exceptOk (env.review h) = false) : hunkComments env h = [] := by
  cases hr : env.review h with
  | error e => simp [hunkComments, hr]
  | ok v => rw [hr] at hfail; simp [exceptOk] at hfail

theorem collectComments_eq {env : LLMEnv} :
    ∀ {hs : List Hunk}, (∀ h ∈ hs, h.filename ≠ []) →
      collectComments env hs = .ok (concatAll (hs.map (hunkComments env))) := by
  intro hs
  induction hs with
  | nil => intro _; rfl
  | cons h hs ih =>
    intro hv
    rw [collectComments, reviewHunk_eq_ok (hv h (by simp))]
    rw [ih fun x hx => hv x (by simp [hx])]
    simp [concatAll]

theorem reviewChanges_eq {env : LLMEnv} {s : String} {opts : ReviewOptions}
    (hne : s ≠ "")
    (hv : ∀ h ∈ parseDiffLines (splitLines s.data), h.filename ≠ []) :
    reviewChanges env (.str s) opts =
      .ok ⟨if opts.generateSummary = some false then none
             else some (generateSummary env s.data),
           concatAll ((parseDiffLines (splitLines s.data)).map (hunkComments env)),
           parseDiffLines (splitLines s.data), env.now,
           (parseDiffLines (splitLines s.data)).length,
           (concatAll ((parseDiffLines (splitLines s.data)).map (hunkComments env))).length⟩ := by
  simp only [reviewChanges, if_neg hne, collectComments_eq hv]

/-! ## Trimming and whitespace -/

theorem dropWhile_all_iff {p : Char → Bool} :
    ∀ {s : List Char}, (∀ x ∈ s.dropWhile p, p x = true) ↔ (∀ x ∈ s, p x = true) := by
  intro s
  induction s with
  | nil => simp
  | cons c t ih =>
    by_cases hc : p c = true
    · simp [List.dropWhile, hc, ih]
    · simp [List.dropWhile, hc]

theorem jsTrim_eq_nil_iff {s : List Char} : jsTrim s = [] ↔ wsOnly s = true := by
  unfold jsTrim wsOnly
  rw [List.reverse_eq_nil_iff, List.dropWhile_eq_nil_iff]
  simp only [List.mem_reverse]
  rw [dropWhile_all_iff, List.all_eq_true]

/-! ## Lemmas for comment filtering -/

theorem minFilter_eq (m : Nat) (hm : m ≠ 0) (comments : List ReviewComment) :
    (comments.filter fun c => !c.body.isEmpty && decide (m ≤ c.body.length)) =
      comments.filter fun c => decide (m ≤ c.body.length) := by
  apply List.filter_congr
  intro c _
  by_cases hl : m ≤ c.body.length
  · have hne : c.body.isEmpty = false := by
      cases hb : c.body with
      | nil => rw [hb] at hl; simp at hl; omega
      | cons a t => rfl
    simp [hl, hne]
  · simp [hl]

/-! ## Lemmas for multi-hunk segments -/

theorem isEmpty_false_of_ne_nil {α : Type} {l : List α} (h : l ≠ []) :
    l.isEmpty = false := by
  cases l with
  | nil => exact absurd rfl h
  | cons a t => rfl

theorem numberChanges_ne_nil {o n : Nat} {body : List (List Char)} (h : body ≠ []) :
    numberChanges o n body ≠ [] := by
  cases body with
  | nil => exact absurd rfl h
  | cons b bs =>
    unfold numberChanges
    split_ifs <;> simp

theorem foldl_segs {segs : List DiffSeg} :
    ∀ (st : ParseState),
      (∀ seg ∈ segs, strStarts atMark seg.hdrLine = true ∧
        parseHunkHeader seg.hdrLine = some ⟨seg.oldStart, seg.newStart⟩ ∧
        seg.body ≠ [] ∧ ∀ b ∈ seg.body, isBodyLine b = true) →
      pushCurrent ((segLines segs).foldl processLine st) =
        pushCurrent st ++ segs.map (fun seg =>
          ⟨numberChanges seg.oldStart seg.newStart seg.body, st.currentFile,
           some ⟨seg.oldStart, seg.newStart⟩⟩) := by
  induction segs with
  | nil => intro st _; simp [segLines]
  | cons seg rest ih =>
    intro st hall
    obtain ⟨hat, hhdr, hbne, hbody⟩ := hall seg (by simp)
    rw [segLines, List.foldl_cons, processLine_at hat, hhdr, List.foldl_append]
    rw [foldl_body _ seg.oldStart seg.newStart hbody (by simp)]
    rw [ih _ (fun x hx => hall x (by simp [hx]))]
    simp [pushCurrent, numberChanges_ne_nil hbne, List.append_assoc]

/-! ## Scan invariants for stray content before any file marker -/

theorem mem_pushCurrent {st : ParseState} {x : Hunk} (hx : x ∈ pushCurrent st) :
    x ∈ st.hunks ∨ x = ⟨st.currentHunk, st.currentFile, st.currentHunkHeader⟩ := by
  unfold pushCurrent at hx
  by_cases he : st.currentHunk.isEmpty
  · rw [if_pos he] at hx; exact Or.inl hx
  · rw [if_neg he] at hx
    rcases List.mem_append.mp hx with h1 | h2
    · exact Or.inl h1
    · simp at h2; exact Or.inr h2

theorem head?_pushCurrent {st : ParseState} :
    (pushCurrent st).head? = st.hunks.head? ∨
    (st.hunks = [] ∧ st.currentHunk ≠ [] ∧
      pushCurrent st = [⟨st.currentHunk, st.currentFile, st.currentHunkHeader⟩]) := by
  unfold pushCurrent
  by_cases he : st.currentHunk.isEmpty
  · rw [if_pos he]; exact Or.inl rfl
  · rw [if_neg he]
    cases hh : st.hunks with
    | nil =>
      refine Or.inr ⟨rfl, ?_, by simp⟩
      cases hc : st.currentHunk with
      | nil => rw [hc] at he; exact absurd rfl he
      | cons a t => simp
    | cons a t => exact Or.inl (by simp)

theorem pushCurrent_eq_nil_iff {st : ParseState} :
    pushCurrent st = [] ↔ st.hunks = [] ∧ st.currentHunk = [] := by
  unfold pushCurrent
  by_cases he : st.currentHunk.isEmpty
  · rw [if_pos he]
    have hc : st.currentHunk = [] := by
      cases hc : st.currentHunk with
      | nil => rfl
      | cons a t => rw [hc] at he; simp at he
    simp [hc]
  · rw [if_neg he]
    have hc : st.currentHunk ≠ [] := by
      cases hc : st.currentHunk with
      | nil => rw [hc] at he; simp at he
      | cons a t => simp
    simp [hc]

theorem isBodyLine_of_not {l : List Char} (hdg : strStarts dgMark l = false)
    (hat : strStarts atMark l = false) (hm : isMetaLine l = false) :
    isBodyLine l = true := by
  have h3 : strStarts idxMark l = false ∧ strStarts dashMark l = false ∧
      strStarts plusMark l = false := by
    simpa [isMetaLine, and_assoc] using hm
  simp [isBodyLine, hdg, hat, h3.1, h3.2.1, h3.2.2]

theorem preScanInv_step {st : ParseState} {l : List Char}
    (hdg : strStarts dgMark l = false) (h : preScanInv st) :
    preScanInv (processLine st l) := by
  obtain ⟨hf, hh⟩ := h
  by_cases hat : strStarts atMark l = true
  · rw [processLine_at hat]
    refine ⟨hf, ?_⟩
    intro x hx
    rcases mem_pushCurrent hx with h1 | h2
    · exact hh x h1
    · rw [h2]; exact hf
  · by_cases hm : isMetaLine l = true
    · rw [processLine_meta hm]; exact ⟨hf, hh⟩
    · rw [processLine_body (isBodyLine_of_not hdg (by simpa using hat) (by simpa using hm))]
      exact ⟨hf, hh⟩

theorem preScanHdrInv_step {st : ParseState} {l : List Char}
    (hdg : strStarts dgMark l = false) (hat : strStarts atMark l = false)
    (h : preScanHdrInv st) : preScanHdrInv (processLine st l) := by
  obtain ⟨hf, hh, hd⟩ := h
  by_cases hm : isMetaLine l = true
  · rw [processLine_meta hm]; exact ⟨hf, hh, hd⟩
  · rw [processLine_body (isBodyLine_of_not hdg hat (by simpa using hm))]
    exact ⟨hf, hh, hd⟩

theorem firstHunkInv_flush {st : ParseState} (h : firstHunkInv st) (f : List Char)
    (hdr : Option HunkHeader) (lc : Option LineCounters) :
    firstHunkInv ⟨pushCurrent st, [], f, hdr, lc⟩ := by
  obtain ⟨hhead, hemp⟩ := h
  constructor
  · intro x hx
    rcases @head?_pushCurrent st with hcase | ⟨hnil, hne, heq⟩
    · rw [show (⟨pushCurrent st, [], f, hdr, lc⟩ : ParseState).hunks = pushCurrent st from rfl,
        hcase] at hx
      exact hhead x hx
    · rw [show (⟨pushCurrent st, [], f, hdr, lc⟩ : ParseState).hunks = pushCurrent st from rfl,
        heq] at hx
      simp at hx; subst hx; exact (hemp hnil).1
  · intro hnil
    exfalso
    rcases pushCurrent_eq_nil_iff.mp hnil with ⟨h1, h2⟩
    exact (hemp h1).2 h2

theorem firstHunkInv_step {st : ParseState} (l : List Char) (h : firstHunkInv st) :
    firstHunkInv (processLine st l) := by
  by_cases hdg : strStarts dgMark l = true
  · rw [processLine_dg hdg]; exact firstHunkInv_flush h _ _ _
  · by_cases hat : strStarts atMark l = true
    · rw [processLine_at hat]; exact firstHunkInv_flush h _ _ _
    · by_cases hm : isMetaLine l = true
      · rw [processLine_meta hm]; exact h
      · rw [processLine_body
          (isBodyLine_of_not (by simpa using hdg) (by simpa using hat) (by simpa using hm))]
        obtain ⟨hhead, hemp⟩ := h
        exact ⟨hhead, fun hnil => ⟨(hemp hnil).1, by simp⟩⟩

theorem firstHunkHdrInv_flush {st : ParseState} (h : firstHunkHdrInv st) (f : List Char)
    (hdr : Option HunkHeader) (lc : Option LineCounters) :
    firstHunkHdrInv ⟨pushCurrent st, [], f, hdr, lc⟩ := by
  obtain ⟨hhead, hemp⟩ := h
  constructor
  · intro x hx
    rcases @head?_pushCurrent st with hcase | ⟨hnil, hne, heq⟩
    · rw [show (⟨pushCurrent st, [], f, hdr, lc⟩ : ParseState).hunks = pushCurrent st from rfl,
        hcase] at hx
      exact hhead x hx
    · rw [show (⟨pushCurrent st, [], f, hdr, lc⟩ : ParseState).hunks = pushCurrent st from rfl,
        heq] at hx
      simp at hx; subst hx; exact ⟨(hemp hnil).1, (hemp hnil).2.1⟩
  · intro hnil
    exfalso
    rcases pushCurrent_eq_nil_iff.mp hnil with ⟨h1, h2⟩
    exact (hemp h1).2.2 h2

theorem firstHunkHdrInv_step {st : ParseState} (l : List Char) (h : firstHunkHdrInv st) :
    firstHunkHdrInv (processLine st l) := by
  by_cases hdg : strStarts dgMark l = true
  · rw [processLine_dg hdg]; exact firstHunkHdrInv_flush h _ _ _
  · by_cases hat : strStarts atMark l = true
    · rw [processLine_at hat]; exact firstHunkHdrInv_flush h _ _ _
    · by_cases hm : isMetaLine l = true
      · rw [processLine_meta hm]; exact h
      · rw [processLine_body
          (isBodyLine_of_not (by simpa using hdg) (by simpa using hat) (by simpa using hm))]
        obtain ⟨hhead, hemp⟩ := h
        exact ⟨hhead, fun hnil =>
          ⟨(hemp hnil).1, (hemp hnil).2.1, by simp⟩⟩

theorem foldl_preserve {P : ParseState → Prop} {Q : List Char → Prop}
    (step : ∀ st l, Q l → P st → P (processLine st l)) :
    ∀ (ls : List (List Char)) (st : ParseState), (∀ l ∈ ls, Q l) → P st →
      P (ls.foldl processLine st) := by
  intro ls
  induction ls with
  | nil => intro st _ h; exact h
  | cons l ls ih =>
    intro st hq h
    rw [List.foldl_cons]
    exact ih _ (fun x hx => hq x (by simp [hx])) (step st l (hq l (by simp)) h)

/-! ## Claims about the diff parser -/

/-- Claim C1: for every hunk whose `@@` header parsed successfully with old
start `O` and new start `N`, the scanning loop assigns `lineNumber`s by
classifying each body line by its first character — an addition returns
the current new-counter and then increments it, a deletion returns the
current old-counter and then increments it, and any other line is
context, increments both counters, and returns the new-counter value —
with both counters starting from `N` and `O` and evolving independently
and monotonically over the hunk's changes in input order (the
evolution is the one given explicitly by `numberChanges`). -/
theorem claim_C1 (st : ParseState) (hline : List Char) (O N : Nat)
    (bs : List (List Char))
    (hat : strStarts atMark hline = true)
    (hhdr : parseHunkHeader hline = some ⟨O, N⟩)
    (hbody : ∀ b ∈ bs, isBodyLine b = true) :
    (bs.foldl processLine (processLine st hline)).currentHunk = numberChanges O N bs := by
  rw [processLine_at hat, hhdr]
  rw [foldl_body _ O N hbody (by simp)]
  simp

/-- Witness for C1, matching the specification's own example: after header
`@@ -5,6 +5,8 @@`, two additions get line numbers 5 and 6 and the
following context line gets 7. -/
theorem claim_C1_witness :
    (["+a".data, "+b".data, " c".data].foldl processLine
        (processLine ⟨[], [], [], none, none⟩ "@@ -5,6 +5,8 @@".data)).currentHunk =
      [⟨"+a".data, .addition, some 5⟩, ⟨"+b".data, .addition, some 6⟩,
       ⟨" c".data, .context, some 7⟩] :=
  (claim_C1 ⟨[], [], [], none, none⟩ "@@ -5,6 +5,8 @@".data 5 5
    ["+a".data, "+b".data, " c".data] (by decide) (by decide) (by decide)).trans
    (by decide)

/-- Claim C5: a diff text made of one `diff --git` marker followed by `K`
`@@` headers, each with its own non-empty body, parses to exactly `K`
hunks, all sharing the filename taken from the marker, each numbered from
its own header's start values (not cumulatively), each `@@` line ending
the previous in-progress hunk. -/
theorem claim_C5 (s : String) (marker : List Char) (segs : List DiffSeg)
    (hne : s ≠ "")
    (hsplit : splitLines s.data = marker :: segLines segs)
    (hmarker : strStarts dgMark marker = true)
    (hsegs : ∀ seg ∈ segs, strStarts atMark seg.hdrLine = true ∧
      parseHunkHeader seg.hdrLine = some ⟨seg.oldStart, seg.newStart⟩ ∧
      seg.body ≠ [] ∧ ∀ b ∈ seg.body, isBodyLine b = true) :
    parseDiff (.str s) = .ok (segs.map fun seg =>
      ⟨numberChanges seg.oldStart seg.newStart seg.body, extractFile marker,
       some ⟨seg.oldStart, seg.newStart⟩⟩) := by
  simp only [parseDiff]
  rw [if_neg hne, hsplit, parseDiffLines, List.foldl_cons, processLine_dg hmarker]
  rw [foldl_segs _ hsegs]
  simp [pushCurrent]

/-- Witness for C5: one file marker followed by two headers with their own
bodies yields two hunks with the same filename and per-header counters. -/
theorem claim_C5_witness :
    parseDiff (.str "diff --git a/m.js b/m.js\n@@ -1,2 +1,2 @@\n x\n@@ -10,3 +20,4 @@\n+q\n-r") =
      .ok [⟨[⟨" x".data, .context, some 1⟩], "m.js".data, some ⟨1, 1⟩⟩,
           ⟨[⟨"+q".data, .addition, some 20⟩, ⟨"-r".data, .deletion, some 10⟩],
            "m.js".data, some ⟨10, 20⟩⟩] :=
  (claim_C5 "diff --git a/m.js b/m.js\n@@ -1,2 +1,2 @@\n x\n@@ -10,3 +20,4 @@\n+q\n-r"
    "diff --git a/m.js b/m.js".data
    [⟨"@@ -1,2 +1,2 @@".data, 1, 1, [" x".data]⟩,
     ⟨"@@ -10,3 +20,4 @@".data, 10, 20, ["+q".data, "-r".data]⟩]
    (by decide) (by decide) (by decide) (by decide)).trans (by decide)

/-- Claim C8: a diff consisting of a `diff --git` marker, optional metadata
lines and the single body line `Binary files differ` with no `@@` header
parses to exactly one hunk containing a single context-typed change with a
null line number; and, in general, every change recorded while no header
counters are set gets a null line number regardless of its type. -/
theorem claim_C8 :
    (∀ (s : String) (marker : List Char) (ms : List (List Char)),
      s ≠ "" →
      splitLines s.data = marker :: (ms ++ ["Binary files differ".data]) →
      strStarts dgMark marker = true →
      (∀ x ∈ ms, isMetaLine x = true) →
      parseDiff (.str s) =
        .ok [⟨[⟨"Binary files differ".data, .context, none⟩], extractFile marker, none⟩]) ∧
    (∀ (st : ParseState) (bs : List (List Char)),
      st.lineCounters = none → (∀ b ∈ bs, isBodyLine b = true) →
      (bs.foldl processLine st).currentHunk =
        st.currentHunk ++ bs.map fun b => ⟨b, classifyLine b, none⟩) := by
  constructor
  · intro s marker ms hne hsplit hmarker hms
    simp only [parseDiff]
    rw [if_neg hne, hsplit, parseDiffLines, List.foldl_cons, processLine_dg hmarker,
      List.foldl_append, foldl_meta hms]
    have hbody : isBodyLine "Binary files differ".data = true := by decide
    have hcl : classifyLine "Binary files differ".data = .context := by decide
    rw [show ∀ st : ParseState, ["Binary files differ".data].foldl processLine st =
        processLine st "Binary files differ".data from fun st => rfl]
    rw [processLine_body hbody]
    simp [pushCurrent, calculateLineNumber, hcl]
  · intro st bs hc hbs
    rw [foldl_body_noCounters hc hbs]

/-- Witness for C8: a concrete binary-file diff block. -/
theorem claim_C8_witness :
    parseDiff (.str "diff --git a/img.png b/img.png\nindex 1..2\nBinary files differ") =
      .ok [⟨[⟨"Binary files differ".data, .context, none⟩], "img.png".data, none⟩] :=
  (claim_C8.1 "diff --git a/img.png b/img.png\nindex 1..2\nBinary files differ"
    "diff --git a/img.png b/img.png".data ["index 1..2".data]
    (by decide) (by decide) (by decide) (by decide)).trans (by decide)

/-- Claim C9: `parse` fails with the invalid-input error exactly when its
argument is not a non-empty string; in particular `null`, `undefined`,
any number, and the empty string are all rejected, and every non-empty
string yields an ordered hunk list without failing. -/
theorem claim_C9 :
    parseDiff .null = .error "Invalid diff input: expected non-empty string" ∧
    parseDiff .undefined = .error "Invalid diff input: expected non-empty string" ∧
    (∀ n : Int, parseDiff (.num n) = .error "Invalid diff input: expected non-empty string") ∧
    parseDiff (.str "") = .error "Invalid diff input: expected non-empty string" ∧
    (∀ s : String, s ≠ "" → parseDiff (.str s) = .ok (parseDiffLines (splitLines s.data))) ∧
    (∀ v : JSInput, exceptOk (parseDiff v) = true ↔ ∃ s, v = .str s ∧ s ≠ "") := by
  refine ⟨rfl, rfl, fun n => rfl, by simp [parseDiff], ?_, ?_⟩
  · intro s hs; simp [parseDiff, hs]
  · intro v
    cases v with
    | null => simp [parseDiff, exceptOk]
    | undefined => simp [parseDiff, exceptOk]
    | num n => simp [parseDiff, exceptOk]
    | str s =>
      by_cases hs : s = ""
      · subst hs; simp [parseDiff, exceptOk]
      · simp [parseDiff, hs, exceptOk]

/-- Witness for C9: a number is rejected and a non-empty string succeeds. -/
theorem claim_C9_witness :
    parseDiff (.num 123) = .error "Invalid diff input: expected non-empty string" ∧
    exceptOk (parseDiff (.str "x")) = true :=
  ⟨claim_C9.2.2.1 123, (claim_C9.2.2.2.2.2 (.str "x")).mpr ⟨"x", rfl, by decide⟩⟩

/-- Claim C10 (implicit edge case): a hunk body line appearing before any
`diff --git` marker does not make `parse` fail; the first hunk produced
has the empty-string filename (and a null header when no `@@` line
preceded the body line), and such a hunk is rejected by the hunk-shape
validation of `reviewHunk`. -/
theorem claim_C10 (s : String) (pre : List (List Char)) (b : List Char)
    (rest : List (List Char))
    (hne : s ≠ "")
    (hsplit : splitLines s.data = pre ++ b :: rest)
    (hpre : ∀ x ∈ pre, strStarts dgMark x = false)
    (hb : isBodyLine b = true) :
    parseDiff (.str s) = .ok (parseDiffLines (splitLines s.data)) ∧
    parseDiffLines (splitLines s.data) ≠ [] ∧
    ∀ h ∈ (parseDiffLines (splitLines s.data)).head?,
      h.filename = [] ∧ (∀ env : LLMEnv, reviewHunk env h = .error "Invalid hunk data") ∧
      ((∀ x ∈ pre, strStarts atMark x = false) → h.hunkHeader = none) := by
  have hparse : parseDiff (.str s) = .ok (parseDiffLines (splitLines s.data)) := by
    simp [parseDiff, hne]
  have hpreInv : preScanInv (pre.foldl processLine ⟨[], [], [], none, none⟩) :=
    foldl_preserve (fun st l hq h => preScanInv_step hq h) pre _ hpre ⟨rfl, by simp⟩
  have hbInv : firstHunkInv (processLine (pre.foldl processLine ⟨[], [], [], none, none⟩) b) := by
    obtain ⟨hf, hh⟩ := hpreInv
    rw [processLine_body hb]
    exact ⟨fun x hx => hh x (List.mem_of_mem_head? hx), fun hnil => ⟨hf, by simp⟩⟩
  have hfold : firstHunkInv ((pre ++ b :: rest).foldl processLine ⟨[], [], [], none, none⟩) := by
    rw [List.foldl_append, List.foldl_cons]
    exact foldl_preserve (fun st l _ h => firstHunkInv_step l h) rest _
      (fun _ _ => trivial) hbInv
  have hlines : parseDiffLines (splitLines s.data) =
      pushCurrent ((pre ++ b :: rest).foldl processLine ⟨[], [], [], none, none⟩) := by
    rw [hsplit, parseDiffLines]
  obtain ⟨hhead, hemp⟩ := hfold
  have hne2 : parseDiffLines (splitLines s.data) ≠ [] := by
    rw [hlines]
    intro h0
    rcases pushCurrent_eq_nil_iff.mp h0 with ⟨h1, h2⟩
    exact (hemp h1).2 h2
  refine ⟨hparse, hne2, ?_⟩
  intro h hmem
  rw [hlines] at hmem
  have hfn : h.filename = [] := by
    rcases @head?_pushCurrent ((pre ++ b :: rest).foldl processLine ⟨[], [], [], none, none⟩)
      with hcase | ⟨hnil, hcne, heq⟩
    · rw [hcase] at hmem; exact hhead h hmem
    · rw [heq] at hmem
      simp only [List.head?_cons, Option.mem_def, Option.some.injEq] at hmem
      subst hmem; exact (hemp hnil).1
  refine ⟨hfn, ?_, ?_⟩
  · intro env; simp [reviewHunk, hfn]
  · intro hpreAt
    have hpreInvH : preScanHdrInv (pre.foldl processLine ⟨[], [], [], none, none⟩) :=
      @foldl_preserve preScanHdrInv
        (fun l => strStarts dgMark l = false ∧ strStarts atMark l = false)
        (fun st l hq h => preScanHdrInv_step hq.1 hq.2 h) pre _
        (fun x hx => ⟨hpre x hx, hpreAt x hx⟩) ⟨rfl, rfl, rfl⟩
    have hbInvH : firstHunkHdrInv
        (processLine (pre.foldl processLine ⟨[], [], [], none, none⟩) b) := by
      obtain ⟨hf, hh, hd⟩ := hpreInvH
      rw [processLine_body hb]
      constructor
      · intro x hx
        have hx2 : x ∈ (pre.foldl processLine ⟨[], [], [], none, none⟩).hunks.head? := hx
        rw [hh] at hx2
        exact absurd hx2 (by simp)
      · intro _; exact ⟨hf, hd, by simp⟩
    have hfoldH : firstHunkHdrInv
        ((pre ++ b :: rest).foldl processLine ⟨[], [], [], none, none⟩) := by
      rw [List.foldl_append, List.foldl_cons]
      exact foldl_preserve (fun st l _ h => firstHunkHdrInv_step l h) rest _
        (fun _ _ => trivial) hbInvH
    obtain ⟨hheadH, hempH⟩ := hfoldH
    rcases @head?_pushCurrent ((pre ++ b :: rest).foldl processLine ⟨[], [], [], none, none⟩)
      with hcase | ⟨hnil, hcne, heq⟩
    · rw [hcase] at hmem; exact (hheadH h hmem).2
    · rw [heq] at hmem
      simp only [List.head?_cons, Option.mem_def, Option.some.injEq] at hmem
      subst hmem; exact (hempH hnil).2.1

/-- Witness for C10: the line `hello` before any marker yields a first hunk
with empty filename that `reviewHunk` rejects. -/
theorem claim_C10_witness :
    parseDiffLines (splitLines strayDiff.data) ≠ [] ∧
    strayHunk.filename = [] ∧
    reviewHunk envFail strayHunk = .error "Invalid hunk data" := by
  have H := claim_C10 strayDiff [] "hello".data
    ["diff --git a/x.js b/x.js".data, "@@ -1 +1 @@".data, "+z".data]
    (by decide) (by decide) (by decide) (by decide)
  refine ⟨H.2.1, ?_, ?_⟩
  · exact (H.2.2 strayHunk (Option.mem_def.mpr (by decide))).1
  · exact (H.2.2 strayHunk (Option.mem_def.mpr (by decide))).2.1 envFail

/-! ## Claims about the review orchestrator -/

/-- Claim C2: with one hunk whose LLM call rejects and all other hunks
succeeding, `reviewChanges` still resolves; the failed hunk contributes
zero comments, the remaining hunks' comments appear in hunk order, and
`metadata.totalComments` is the sum of the other hunks' comment counts. -/
theorem claim_C2 (env : LLMEnv) (s : String) (opts : ReviewOptions)
    (pre post : List Hunk) (hk : Hunk)
    (hne : s ≠ "")
    (hparse : parseDiffLines (splitLines s.data) = pre ++ hk :: post)
    (hvalid : ∀ h ∈ pre ++ hk :: post, h.filename ≠ [])
    (hfail : exceptOk (env.review hk) = false)
    (hsucc : ∀ h ∈ pre ++ post, exceptOk (env.review h) = true) :
    ∃ r, reviewChanges env (.str s) opts = .ok r ∧
      r.comments = concatAll (pre.map (hunkComments env)) ++
        concatAll (post.map (hunkComments env)) ∧
      r.totalComments = (pre.map fun h => (hunkComments env h).length).sum +
        (post.map fun h => (hunkComments env h).length).sum := by
  have hv' : ∀ h ∈ parseDiffLines (splitLines s.data), h.filename ≠ [] := by
    rw [hparse]; exact hvalid
  have hcomm : concatAll ((parseDiffLines (splitLines s.data)).map (hunkComments env)) =
      concatAll (pre.map (hunkComments env)) ++ concatAll (post.map (hunkComments env)) := by
    rw [hparse, concatAll_map_append, List.map_cons, concatAll, hunkComments_of_fail hfail]
    simp
  refine ⟨_, reviewChanges_eq hne hv', hcomm, ?_⟩
  show (concatAll ((parseDiffLines (splitLines s.data)).map (hunkComments env))).length = _
  rw [hcomm]
  simp only [List.length_append, length_concatAll, List.map_map]
  rfl

/-- Witness for C2: `envFail` rejects the first hunk of `diffTwo` and
succeeds on the second. -/
theorem claim_C2_witness :
    ∃ r, reviewChanges envFail (.str diffTwo) ⟨none⟩ = .ok r ∧
      r.comments = concatAll (([] : List Hunk).map (hunkComments envFail)) ++
        concatAll ([hunkB].map (hunkComments envFail)) ∧
      r.totalComments = (([] : List Hunk).map fun h => (hunkComments envFail h).length).sum +
        ([hunkB].map fun h => (hunkComments envFail h).length).sum :=
  claim_C2 envFail diffTwo ⟨none⟩ [] [hunkB] hunkA (by decide) (by decide) (by decide)
    (by decide) (by decide)

/-- Claim C6: `filterComments` is a pure function of its input (the input
list is never mutated — the source operates on a spread copy and this
embedding is pure), and the sequential application of the three criteria
equals a single order-preserving filter by the conjunction of the three
active predicates, each applied independently. -/
theorem claim_C6 (comments : List ReviewComment) (filters : CommentFilters) :
    filterComments comments filters =
      comments.filter fun c =>
        minLenOk filters c && excludeOk filters c && includeOk filters c := by
  have h1 : ∀ l, stageMin filters l = l.filter fun c => minLenOk filters c := by
    intro l
    rcases hml : filters.minLength with _ | m
    · simp [stageMin, minLenOk, hml]
    · by_cases hm : m = 0
      · simp [stageMin, minLenOk, hml, hm]
      · simp only [stageMin, minLenOk, hml, if_neg hm]
        exact minFilter_eq m hm l
  have h2 : ∀ l, stageExclude filters l = l.filter fun c => excludeOk filters c := by
    intro l
    rcases hex : filters.excludeFiles with _ | v
    · simp [stageExclude, excludeOk, hex]
    · by_cases hv : jsTruthy v = true
      · simp [stageExclude, excludeOk, hex, hv]
      · simp [stageExclude, excludeOk, hex, hv]
  have h3 : ∀ l, stageInclude filters l = l.filter fun c => includeOk filters c := by
    intro l
    rcases hin : filters.includeFiles with _ | v
    · simp [stageInclude, includeOk, hin]
    · by_cases hv : jsTruthy v = true
      · simp [stageInclude, includeOk, hin, hv]
      · simp [stageInclude, includeOk, hin, hv]
  rw [filterComments, h1, h2, h3, List.filter_filter, List.filter_filter]
  apply List.filter_congr
  intro x _
  simp [Bool.and_comm, Bool.and_left_comm, Bool.and_assoc]

/-- Claim C7: when `options.generateSummary === false` no summary request
is made (the result does not depend on the summary collaborator) and the
result's summary is null; otherwise a summary is requested — a failing
summary call degrades locally to the fixed failure string while per-hunk
comment generation still runs to completion, and a succeeding one is
returned as is. -/
theorem claim_C7 (env : LLMEnv) (s : String) (opts : ReviewOptions)
    (hne : s ≠ "")
    (hvalid : ∀ h ∈ parseDiffLines (splitLines s.data), h.filename ≠ []) :
    (opts.generateSummary = some false →
      (∀ env2 : LLMEnv, env2.review = env.review → env2.now = env.now →
        reviewChanges env2 (.str s) opts = reviewChanges env (.str s) opts) ∧
      ∃ r, reviewChanges env (.str s) opts = .ok r ∧ r.summary = none) ∧
    (opts.generateSummary ≠ some false →
      (∀ e, env.summary s.data = .error e →
        ∃ r, reviewChanges env (.str s) opts = .ok r ∧
          r.summary = some "Summary generation failed".data ∧
          r.comments =
            concatAll ((parseDiffLines (splitLines s.data)).map (hunkComments env))) ∧
      (∀ t, env.summary s.data = .ok t →
        ∃ r, reviewChanges env (.str s) opts = .ok r ∧ r.summary = some t)) := by
  constructor
  · intro hgen
    constructor
    · intro env2 hrev hnow
      have hfun : hunkComments env2 = hunkComments env := by
        funext h
        simp [hunkComments, hrev]
      rw [reviewChanges_eq hne hvalid,
        reviewChanges_eq hne (show ∀ h ∈ parseDiffLines (splitLines s.data),
          h.filename ≠ [] from hvalid)]
      simp [hgen, hfun, hnow]
    · exact ⟨_, reviewChanges_eq hne hvalid, by simp [hgen]⟩
  · intro hgen
    constructor
    · intro e he
      refine ⟨_, reviewChanges_eq hne hvalid, ?_, rfl⟩
      show (if opts.generateSummary = some false then none
        else some (generateSummary env s.data)) = _
      rw [if_neg hgen]
      simp [generateSummary, he]
    · intro t ht
      refine ⟨_, reviewChanges_eq hne hvalid, ?_⟩
      show (if opts.generateSummary = some false then none
        else some (generateSummary env s.data)) = some t
      rw [if_neg hgen]
      simp [generateSummary, ht]

/-- Witness for C7: `envFail`'s summary call rejects, yet `reviewChanges`
resolves with the fixed failure string and the full comment list. -/
theorem claim_C7_witness :
    ∃ r, reviewChanges envFail (.str diffOne) ⟨none⟩ = .ok r ∧
      r.summary = some "Summary generation failed".data ∧
      r.comments =
        concatAll ((parseDiffLines (splitLines diffOne.data)).map (hunkComments envFail)) :=
  ((claim_C7 envFail diffOne ⟨none⟩ (by decide) (by decide)).2 (by decide)).1
    "summary down" rfl

/-! ## Claims about the OpenAI provider -/

/-- Counterexample to C3 as stated: `choices[0].message.content` is
present (it is the empty string), yet `parseResponse` raises the
`InvalidResponse` error, not the `EmptyResponse` one — the first guard
tests JavaScript falsiness, which the empty string satisfies. -/
theorem claim_C3_counterexample :
    extractContent respEmptyContent = some [] ∧
    parseResponse respEmptyContent = .error "Invalid OpenAI response format" ∧
    "Invalid OpenAI response format" ≠ "Empty response from OpenAI" := by
  refine ⟨rfl, rfl, by decide⟩

/-- Claim C3, amended: `parseResponse` fails with `InvalidResponse`
exactly when the content path is absent or holds the empty string; it
fails with `EmptyResponse` exactly when the extracted text is non-empty
but whitespace-only; otherwise it returns the extracted text unchanged. -/
theorem claim_C3 (r : OAIResponse) :
    (parseResponse r = .error "Invalid OpenAI response format" ↔
      extractContent r = none ∨ extractContent r = some []) ∧
    (parseResponse r = .error "Empty response from OpenAI" ↔
      ∃ s, extractContent r = some s ∧ s ≠ [] ∧ wsOnly s = true) ∧
    (∀ s, extractContent r = some s → wsOnly s = false → parseResponse r = .ok s) := by
  have hmsg : ("Invalid OpenAI response format" : String) ≠ "Empty response from OpenAI" := by
    decide
  cases hx : extractContent r with
  | none =>
    have hpr : parseResponse r = .error "Invalid OpenAI response format" := by
      simp [parseResponse, hx]
    refine ⟨?_, ?_, ?_⟩
    · simp [hpr]
    · simp [hpr, hmsg]
    · intro s hs; simp at hs
  | some content =>
    by_cases hce : content = []
    · subst hce
      have hpr : parseResponse r = .error "Invalid OpenAI response format" := by
        simp [parseResponse, hx]
      refine ⟨?_, ?_, ?_⟩
      · simp [hpr]
      · simp [hpr, hmsg]
      · intro s hs hws
        simp only [Option.some.injEq] at hs
        subst hs
        simp [wsOnly] at hws
    · by_cases hws : wsOnly content = true
      · have htrim : (jsTrim content).length = 0 := by
          rw [List.length_eq_zero]
          exact jsTrim_eq_nil_iff.mpr hws
        have hpr : parseResponse r = .error "Empty response from OpenAI" := by
          simp [parseResponse, hx, isEmpty_false_of_ne_nil hce, htrim]
        refine ⟨?_, ?_, ?_⟩
        · simp [hpr, Ne.symm hmsg, hce]
        · simp [hpr, hce, hws]
        · intro s hs hws2
          simp only [Option.some.injEq] at hs
          subst hs
          rw [hws] at hws2
          cases hws2
      · have htrim : (jsTrim content).length ≠ 0 := by
          intro h0
          rw [List.length_eq_zero] at h0
          exact hws (jsTrim_eq_nil_iff.mp h0)
        have hpr : parseResponse r = .ok content := by
          simp [parseResponse, hx, isEmpty_false_of_ne_nil hce, htrim]
        refine ⟨?_, ?_, ?_⟩
        · simp [hpr, hce]
        · rw [hpr]
          constructor
          · intro h; cases h
          · rintro ⟨s, hs, hsne, hsws⟩
            simp only [Option.some.injEq] at hs
            subst hs
            exact absurd hsws hws
        · intro s hs hws2
          simp only [Option.some.injEq] at hs
          subst hs
          exact hpr

/-- Witness for C3: a non-empty, non-whitespace content is returned
unchanged. -/
theorem claim_C3_witness :
    parseResponse ⟨some [⟨some ⟨some "ok".data⟩, none⟩]⟩ = .ok "ok".data :=
  (claim_C3 ⟨some [⟨some ⟨some "ok".data⟩, none⟩]⟩).2.2 "ok".data (by decide) (by decide)

theorem validateMessages_none :
    ∀ {ms : List OAIMsg}, (∀ m ∈ ms, m.role ≠ [] ∧ m.content ≠ []) →
      validateMessages ms = none := by
  intro ms
  induction ms with
  | nil => intro _; rfl
  | cons m ms ih =>
    intro hall
    have h1 := hall m (by simp)
    rw [validateMessages,
      if_neg (by simp [isEmpty_false_of_ne_nil h1.1, isEmpty_false_of_ne_nil h1.2])]
    exact ih fun x hx => hall x (by simp [hx])

theorem validateMessages_some :
    ∀ {ms : List OAIMsg}, (∃ m ∈ ms, m.role = [] ∨ m.content = []) →
      ∃ e, validateMessages ms = some e := by
  intro ms
  induction ms with
  | nil => rintro ⟨m, hm, _⟩; simp at hm
  | cons m ms ih =>
    rintro ⟨x, hx, hbad⟩
    rw [validateMessages]
    by_cases hc : (m.role.isEmpty || m.content.isEmpty) = true
    · rw [if_pos hc]; exact ⟨_, rfl⟩
    · rw [if_neg hc]
      apply ih
      rcases List.mem_cons.mp hx with rfl | hx2
      · exfalso
        rcases hbad with h | h <;> simp [h] at hc
      · exact ⟨x, hx2, hbad⟩

/-- Counterexample to C4 as stated: with `model: ""`, `maxTokens: 0` and
`temperature: 0` supplied, the request body holds the defaults
(`gpt-4o-mini`, 1000, 0.1) rather than the supplied values, because every
override uses the falsy-defaulting `||` operator. -/
theorem claim_C4_counterexample :
    formatRequest msgsOne optsZero =
      .ok ⟨"gpt-4o-mini".data, msgsOne, 1000, tenthRat⟩ ∧
    formatRequest msgsOne optsZero ≠ .ok ⟨[], msgsOne, 0, 0⟩ := by
  constructor
  · decide
  · decide

/-- Claim C4, amended: for a non-empty message list whose messages all
have non-empty role and content, `formatRequest` succeeds; the body's
messages are the input unchanged, each of model, max_tokens and
temperature is the supplied option value when that value is truthy
(non-empty, non-zero) and the fixed default (`gpt-4o-mini`, 1000, 0.1)
when the option is missing or falsy — in particular a supplied `0`
yields the default.  An empty message list, or any message with empty
role or content, makes it fail. -/
theorem claim_C4 (messages : List OAIMsg) (options : OAIOptions) :
    (messages ≠ [] → (∀ m ∈ messages, m.role ≠ [] ∧ m.content ≠ []) →
      ∃ b, formatRequest messages options = .ok b ∧
        b.messages = messages ∧
        (∀ mo, options.model = some mo → mo ≠ [] → b.model = mo) ∧
        ((options.model = none ∨ options.model = some []) →
          b.model = "gpt-4o-mini".data) ∧
        (∀ t, options.maxTokens = some t → t ≠ 0 → b.maxTokens = t) ∧
        ((options.maxTokens = none ∨ options.maxTokens = some 0) → b.maxTokens = 1000) ∧
        (∀ q, options.temperature = some q → q ≠ 0 → b.temperature = q) ∧
        ((options.temperature = none ∨ options.temperature = some 0) →
          b.temperature = tenthRat)) ∧
    ((messages = [] ∨ ∃ m ∈ messages, m.role = [] ∨ m.content = []) →
      exceptOk (formatRequest messages options) = false) := by
  constructor
  · intro hne hall
    rw [formatRequest, if_neg (by simp [isEmpty_false_of_ne_nil hne]),
      validateMessages_none hall]
    refine ⟨_, rfl, rfl, ?_, ?_, ?_, ?_, ?_, ?_⟩
    · intro mo hmo hmone
      rw [show (⟨jsOrStr options.model "gpt-4o-mini".data, messages,
          jsOrNat options.maxTokens 1000, jsOrRat options.temperature tenthRat⟩ :
          OAIBody).model = jsOrStr options.model "gpt-4o-mini".data from rfl,
        hmo]
      simp [jsOrStr, isEmpty_false_of_ne_nil hmone]
    · rintro (h | h) <;> rw [show (⟨jsOrStr options.model "gpt-4o-mini".data, messages,
          jsOrNat options.maxTokens 1000, jsOrRat options.temperature tenthRat⟩ :
          OAIBody).model = jsOrStr options.model "gpt-4o-mini".data from rfl, h] <;>
        simp [jsOrStr]
    · intro t ht htne
      rw [show (⟨jsOrStr options.model "gpt-4o-mini".data, messages,
          jsOrNat options.maxTokens 1000, jsOrRat options.temperature tenthRat⟩ :
          OAIBody).maxTokens = jsOrNat options.maxTokens 1000 from rfl, ht]
      simp [jsOrNat, htne]
    · rintro (h | h) <;> rw [show (⟨jsOrStr options.model "gpt-4o-mini".data, messages,
          jsOrNat options.maxTokens 1000, jsOrRat options.temperature tenthRat⟩ :
          OAIBody).maxTokens = jsOrNat options.maxTokens 1000 from rfl, h] <;>
        simp [jsOrNat]
    · intro q hq hqne
      rw [show (⟨jsOrStr options.model "gpt-4o-mini".data, messages,
          jsOrNat options.maxTokens 1000, jsOrRat options.temperature tenthRat⟩ :
          OAIBody).temperature = jsOrRat options.temperature tenthRat from rfl, hq]
      simp [jsOrRat, hqne]
    · rintro (h | h) <;> rw [show (⟨jsOrStr options.model "gpt-4o-mini".data, messages,
          jsOrNat options.maxTokens 1000, jsOrRat options.temperature tenthRat⟩ :
          OAIBody).temperature = jsOrRat options.temperature tenthRat from rfl, h] <;>
        simp [jsOrRat]
  · intro hbad
    rcases hbad with hnil | hsome
    · subst hnil; rfl
    · rw [formatRequest]
      by_cases he : messages.isEmpty = true
      · rw [if_pos he]; rfl
      · rw [if_neg he]
        rcases validateMessages_some hsome with ⟨e, he2⟩
        rw [he2]
        rfl

/-- Witness for C4: a supplied non-zero token cap is used, while missing
model and temperature fall back to their defaults. -/
theorem claim_C4_witness :
    ∃ b, formatRequest msgsOne ⟨none, some 5, none⟩ = .ok b ∧ b.maxTokens = 5 ∧
      b.model = "gpt-4o-mini".data ∧ b.temperature = tenthRat := by
  obtain ⟨b, hb, hmsg, hmo1, hmo2, hmt1, hmt2, htp1, htp2⟩ :=
    (claim_C4 msgsOne ⟨none, some 5, none⟩).1 (by decide) (by decide)
  exact ⟨b, hb, hmt1 5 rfl (by decide), hmo2 (Or.inl rfl), htp2 (Or.inl rfl)⟩
